import Mathlib

/-!
Shallow embedding of the minilc3 virtual machine (`src/main.c`).

Conventions of the embedding:
* `Word` (`uint16_t`) values are modelled as `Nat`; wherever C performs an
  implicit conversion to `Word` (assignment of an `int` expression to a
  `uint16_t` object, or `uint16_t` compound arithmetic) the model applies
  `% 65536` / `toWord`.
* `SignedWord` (`int16_t`) values and C `int` intermediates are modelled as
  `Int`; a conversion of an `int` to `int16_t` is `wrapSigned`
  (gcc two's-complement wrap), and reading a `uint16_t` as `int16_t` is
  `toSigned`.
* Array accesses whose index expression has C type `int` (the effective
  addresses `pc + pc_offset` and `registers[base] + offset`) are modelled by
  `memRead`/`memWrite`, which return `none` when the index falls outside
  `[0, 65536)` — in the C program such an access is out of bounds
  (undefined behavior).  Accesses whose index is itself a `Word`
  (instruction fetch, the second dereference of LDI/STI, the PUTS/PUTSP
  scans) are always in bounds and are modelled with `% 65536` indexing,
  reflecting the `uint16_t` type of the index.
* Console output is a `List Nat` of byte values; `stdout_on_new_line` is the
  `lineFlag` field.  stdin is modelled as a stream of `getchar` results
  (`Int`, byte value or -1 for EOF) with a cursor.
-/

namespace MiniLC3

/-- Interpret a `Nat` holding a 16-bit value as C does when reading a
`uint16_t` object through a cast to `int16_t` (two's complement). -/
def toSigned (x : Nat) : Int :=
  if x % 65536 < 32768 then ((x % 65536 : Nat) : Int)
  else ((x % 65536 : Nat) : Int) - 65536

/-- Conversion of a C `int` value to `int16_t` (gcc: two's-complement wrap). -/
def wrapSigned (z : Int) : Int :=
  if z % 65536 < 32768 then z % 65536 else z % 65536 - 65536

/-- Conversion of a C `int` value to `uint16_t` (modular wrap). -/
def toWord (z : Int) : Nat := (z % 65536).toNat

/-- Conversion of a C `int` value to `char` (gcc: signed 8-bit wrap),
used for the result of `getchar`. -/
def wrapChar (z : Int) : Int :=
  if z % 256 < 128 then z % 256 else z % 256 - 256

/-- `swap_endian`: swap high and low bytes of a word
(`(word << 8) | (word >> 8)` on `uint16_t`). -/
def swap_endian (word : Nat) : Nat :=
  ((word % 65536) <<< 8) % 65536 ||| (word % 65536) >>> 8

/-- `set_cc`: condition code computed from a `SignedWord` result. -/
def set_cc (result : Int) : Nat :=
  if result < 0 then 0x4       -- Negative
  else if result = 0 then 0x2  -- Zero
  else 0x1                     -- Positive

/-- `sign_extend`: `(SignedWord)(value ^ sign_bit) - (SignedWord)sign_bit`,
with `sign_bit = 1 << (bits - 1)`; the subtraction happens in `int` and the
result is converted back to `SignedWord`. -/
def sign_extend (value : Nat) (width : Nat) : Int :=
  wrapSigned (toSigned (value ^^^ (1 <<< (width - 1))) - toSigned (1 <<< (width - 1)))

/-- `bits`: extract bits `highest..lowest` (inclusive) of an instruction:
`(instruction >> lowest) & ((1 << (highest - lowest + 1)) - 1)`.
(The C function asserts `highest >= lowest`; every call site satisfies it.) -/
def bits (instruction highest lowest : Nat) : Nat :=
  (instruction >>> lowest) &&& ((1 <<< (highest - lowest + 1)) - 1)

/-- `bits_sext`: extract bits and sign extend. -/
def bits_sext (instruction highest lowest : Nat) : Int :=
  sign_extend (bits instruction highest lowest) (highest - lowest + 1)

def bits_reg_a (instruction : Nat) : Nat := bits instruction 11 9
def bits_reg_b (instruction : Nat) : Nat := bits instruction 8 6
def bits_reg_c (instruction : Nat) : Nat := bits instruction 2 0
def bits_imm_5 (instruction : Nat) : Int := bits_sext instruction 4 0
def bits_offset_6 (instruction : Nat) : Int := bits_sext instruction 5 0
def bits_pc_offset_9 (instruction : Nat) : Int := bits_sext instruction 8 0
def bits_pc_offset_11 (instruction : Nat) : Int := bits_sext instruction 10 0

/-- The machine state of `main`: memory, general purpose registers, program
counter, condition code, the `stdout_on_new_line` flag, and the stream of
`getchar` results with a cursor. -/
structure Machine where
  mem : Nat → Nat
  reg : Nat → Nat
  pc : Nat
  cc : Nat
  lineFlag : Bool
  stdin : Nat → Int
  stdinPos : Nat

/-- Write one register (`registers[i] = v`). -/
def setReg (m : Machine) (i v : Nat) : Machine :=
  { m with reg := fun j => if j = i then v else m.reg j }

/-- Read `memory[a]` where the index expression `a` has C type `int`:
defined only when the index is inside the 65536-word array. -/
def memRead (m : Machine) (a : Int) : Option Nat :=
  if 0 ≤ a ∧ a < 65536 then some (m.mem a.toNat) else none

/-- Write `memory[a] = v` where the index expression `a` has C type `int`. -/
def memWrite (m : Machine) (a : Int) (v : Nat) : Option Machine :=
  if 0 ≤ a ∧ a < 65536 then
    some { m with mem := fun x => if x = a.toNat then v else m.mem x }
  else none

/-- `stdout_on_new_line` after printing the bytes `out` (each `print_char`
sets the flag to `ch == '\n'`). -/
def flagAfter (flag : Bool) (out : List Nat) : Bool :=
  out.foldl (fun _ ch => ch == 10) flag

/-- `print_on_new_line`: the bytes it prints (a newline when the last output
character was not one; afterwards the flag is `true`). -/
def print_on_new_line (flag : Bool) : List Nat :=
  if flag then [] else [10]

/-- Outcome of one iteration of the fetch-decode-execute loop. -/
inductive StepResult where
  | next (m : Machine) (out : List Nat)   -- loop continues
  | halted (m : Machine) (out : List Nat) -- `goto halt`
  | err (code : Nat) (m : Machine)        -- `return ERR_...` from the loop
  | ub                                    -- out-of-bounds memory access
  | diverge                               -- a trap loop that never exits

/-- The PUTS loop body: starting at word index `i` (a `Word`), print the low
byte of each word until a zero low byte.  The C loop
`for (Word i = registers[0];; ++i)` is unbounded; the fuel argument makes the
model total, and `none` means the loop has not terminated within `fuel`
iterations.  Since the index is a `Word` the scan is cyclic with period
65536, so fuel 65536 decides termination (proved below). -/
def scanPuts (mem : Nat → Nat) (i : Nat) : Nat → Option (List Nat)
  | 0 => none
  | fuel + 1 =>
    let ch := mem (i % 65536) % 256
    if ch = 0 then some []
    else
      match scanPuts mem ((i + 1) % 65536) fuel with
      | some out => some (ch :: out)
      | none => none

/-- The PUTSP loop body.  Note the order used by the C code:
`chars[0] = (char)(word >> 8)` is the HIGH byte and is printed first;
`chars[1] = (char)word` is the LOW byte and is printed second. -/
def scanPutsp (mem : Nat → Nat) (i : Nat) : Nat → Option (List Nat)
  | 0 => none
  | fuel + 1 =>
    let word := mem (i % 65536) % 65536
    let ch0 := word >>> 8   -- (char)(word >> 8): high byte
    let ch1 := word % 256   -- (char)word: low byte
    if ch0 = 0 then some []
    else if ch1 = 0 then some [ch0]
    else
      match scanPutsp mem ((i + 1) % 65536) fuel with
      | some out => some (ch0 :: ch1 :: out)
      | none => none

/-- OP_ADD. -/
def execADD (m : Machine) (instruction : Nat) : StepResult :=
  let dest_reg := bits_reg_a instruction
  let src_reg := bits_reg_b instruction
  if bits instruction 5 5 = 0 then
    -- Second operand is a register
    if bits instruction 4 3 ≠ 0 then StepResult.err 3 m
    else
      let second_operand := toSigned (m.reg (bits_reg_c instruction))
      let result := wrapSigned (toSigned (m.reg src_reg) + second_operand)
      StepResult.next { setReg m dest_reg (toWord result) with cc := set_cc result } []
  else
    -- Second operand is an immediate
    let second_operand := bits_imm_5 instruction
    let result := wrapSigned (toSigned (m.reg src_reg) + second_operand)
    StepResult.next { setReg m dest_reg (toWord result) with cc := set_cc result } []

/-- OP_AND. -/
def execAND (m : Machine) (instruction : Nat) : StepResult :=
  let dest_reg := bits_reg_a instruction
  let src_reg := bits_reg_b instruction
  if bits instruction 5 5 = 0 then
    if bits instruction 4 3 ≠ 0 then StepResult.err 3 m
    else
      let second_operand := m.reg (bits_reg_c instruction) % 65536
      let result := (m.reg src_reg % 65536) &&& second_operand
      StepResult.next { setReg m dest_reg result with cc := set_cc (toSigned result) } []
  else
    let second_operand := toWord (bits_imm_5 instruction)
    let result := (m.reg src_reg % 65536) &&& second_operand
    StepResult.next { setReg m dest_reg result with cc := set_cc (toSigned result) } []

/-- OP_NOT (`~registers[src]` in `int`, converted to `Word`). -/
def execNOT (m : Machine) (instruction : Nat) : StepResult :=
  let dest_reg := bits_reg_a instruction
  let src_reg := bits_reg_b instruction
  if bits instruction 5 0 ≠ 0x3f then StepResult.err 3 m
  else
    let result := toWord (-1 - ((m.reg src_reg % 65536 : Nat) : Int))
    StepResult.next { setReg m dest_reg result with cc := set_cc (toSigned result) } []

/-- OP_LEA (`registers[dest] = pc + pc_offset`, converted to `Word`). -/
def execLEA (m : Machine) (instruction : Nat) : StepResult :=
  let dest_reg := bits_reg_a instruction
  let pc_offset := bits_pc_offset_9 instruction
  StepResult.next (setReg m dest_reg (toWord ((m.pc : Int) + pc_offset))) []

/-- OP_LD (`memory[pc + pc_offset]` with an `int` index). -/
def execLD (m : Machine) (instruction : Nat) : StepResult :=
  let dest_reg := bits_reg_a instruction
  let pc_offset := bits_pc_offset_9 instruction
  match memRead m ((m.pc : Int) + pc_offset) with
  | none => StepResult.ub
  | some result =>
    StepResult.next { setReg m dest_reg result with cc := set_cc (toSigned result) } []

/-- OP_LDI (first dereference has an `int` index; the second index is a
`Word`). -/
def execLDI (m : Machine) (instruction : Nat) : StepResult :=
  let dest_reg := bits_reg_a instruction
  let pc_offset := bits_pc_offset_9 instruction
  match memRead m ((m.pc : Int) + pc_offset) with
  | none => StepResult.ub
  | some address =>
    let result := m.mem (address % 65536)
    StepResult.next { setReg m dest_reg result with cc := set_cc (toSigned result) } []

/-- OP_LDR (`memory[registers[base] + offset]` with an `int` index). -/
def execLDR (m : Machine) (instruction : Nat) : StepResult :=
  let dest_reg := bits_reg_a instruction
  let base_reg := bits_reg_b instruction
  let offset := bits_offset_6 instruction
  match memRead m (((m.reg base_reg % 65536 : Nat) : Int) + offset) with
  | none => StepResult.ub
  | some result =>
    StepResult.next { setReg m dest_reg result with cc := set_cc (toSigned result) } []

/-- OP_ST (`memory[pc + pc_offset] = registers[src]`, `int` index). -/
def execST (m : Machine) (instruction : Nat) : StepResult :=
  let src_reg := bits_reg_a instruction
  let pc_offset := bits_pc_offset_9 instruction
  match memWrite m ((m.pc : Int) + pc_offset) (m.reg src_reg % 65536) with
  | none => StepResult.ub
  | some m' => StepResult.next m' []

/-- OP_STI. -/
def execSTI (m : Machine) (instruction : Nat) : StepResult :=
  let src_reg := bits_reg_a instruction
  let pc_offset := bits_pc_offset_9 instruction
  match memRead m ((m.pc : Int) + pc_offset) with
  | none => StepResult.ub
  | some address =>
    let result := m.reg src_reg % 65536
    StepResult.next
      { m with mem := fun x => if x = address % 65536 then result else m.mem x } []

/-- OP_STR. -/
def execSTR (m : Machine) (instruction : Nat) : StepResult :=
  let src_reg := bits_reg_a instruction
  let base_reg := bits_reg_b instruction
  let offset := bits_offset_6 instruction
  match memWrite m (((m.reg base_reg % 65536 : Nat) : Int) + offset) (m.reg src_reg % 65536) with
  | none => StepResult.ub
  | some m' => StepResult.next m' []

/-- OP_BR.  The all-zero word is skipped as a NOP before the zero-condition
check; `pc += pc_offset` wraps as `uint16_t` arithmetic. -/
def execBR (m : Machine) (instruction : Nat) : StepResult :=
  if instruction = 0x0000 then StepResult.next m []
  else
    let condition := bits_reg_a instruction
    if condition = 0 then StepResult.err 3 m
    else
      let pc_offset := bits_pc_offset_9 instruction
      if m.cc &&& condition ≠ 0 then
        StepResult.next { m with pc := toWord ((m.pc : Int) + pc_offset) } []
      else
        StepResult.next m []

/-- OP_JMP_RET. -/
def execJMP (m : Machine) (instruction : Nat) : StepResult :=
  if bits instruction 11 9 ≠ 0 ∨ bits instruction 5 0 ≠ 0 then StepResult.err 3 m
  else
    let base_reg := bits_reg_b instruction
    StepResult.next { m with pc := m.reg base_reg % 65536 } []

/-- OP_JSR_JSRR.  `registers[7] = pc` happens before the bit-11 test and
before the JSRR padding check; JSRR reads the base register after that
write. -/
def execJSR (m : Machine) (instruction : Nat) : StepResult :=
  let m1 := setReg m 7 (m.pc % 65536)
  if bits instruction 11 11 ≠ 0 then
    -- JSR
    let pc_offset := bits_pc_offset_11 instruction
    StepResult.next { m1 with pc := toWord ((m1.pc : Int) + pc_offset) } []
  else
    -- JSRR
    if bits instruction 11 9 ≠ 0 ∨ bits instruction 5 0 ≠ 0 then StepResult.err 3 m1
    else
      let base_reg := bits_reg_b instruction
      StepResult.next { m1 with pc := m1.reg base_reg % 65536 } []

/-- OP_TRAP. -/
def execTRAP (m : Machine) (instruction : Nat) : StepResult :=
  if bits instruction 11 8 ≠ 0 then StepResult.err 3 m
  else
    let trap_vect := bits instruction 8 0
    if trap_vect = 0x20 then
      -- GETC: registers[0] = (Word)(char)getchar()
      let input := wrapChar (m.stdin m.stdinPos)
      StepResult.next
        { setReg m 0 (toWord input) with stdinPos := m.stdinPos + 1 } []
    else if trap_vect = 0x21 then
      -- OUT: print_char((char)registers[0])
      let ch := m.reg 0 % 256
      StepResult.next { m with lineFlag := ch == 10 } [ch]
    else if trap_vect = 0x22 then
      -- PUTS
      match scanPuts m.mem (m.reg 0 % 65536) 65536 with
      | some out => StepResult.next { m with lineFlag := flagAfter m.lineFlag out } out
      | none => StepResult.diverge
    else if trap_vect = 0x23 then
      -- IN: print_on_new_line(); printf("Input> "); read; echo;
      -- print_on_new_line(); registers[0] = input.
      -- (printf does not touch stdout_on_new_line, print_char does.)
      let input := wrapChar (m.stdin m.stdinPos)
      let echo := toWord input % 256
      let out := print_on_new_line m.lineFlag
        ++ [0x49, 0x6e, 0x70, 0x75, 0x74, 0x3e, 0x20]   -- "Input> "
        ++ [echo]
        ++ print_on_new_line (echo == 10)
      StepResult.next
        { setReg m 0 (toWord input) with
            stdinPos := m.stdinPos + 1, lineFlag := true } out
    else if trap_vect = 0x24 then
      -- PUTSP
      match scanPutsp m.mem (m.reg 0 % 65536) 65536 with
      | some out => StepResult.next { m with lineFlag := flagAfter m.lineFlag out } out
      | none => StepResult.diverge
    else if trap_vect = 0x25 then
      -- HALT: goto halt
      StepResult.halted m []
    else
      StepResult.err 3 m

/-- The instruction fetched at the current PC (`memory[pc]`, the index being
a `Word`). -/
def fetched (m : Machine) : Nat := m.mem (m.pc % 65536)

/-- The machine after `pc++` (wrapping as `uint16_t`). -/
def incPC (m : Machine) : Machine := { m with pc := (m.pc + 1) % 65536 }

/-- One iteration of the fetch-decode-execute loop: fetch
(`instruction = memory[pc++]`, the increment wrapping as `uint16_t`), then
dispatch on the opcode. -/
def step (m : Machine) : StepResult :=
  match bits (fetched m) 15 12 with
  | 0x0 => execBR (incPC m) (fetched m)
  | 0x1 => execADD (incPC m) (fetched m)
  | 0x2 => execLD (incPC m) (fetched m)
  | 0x3 => execST (incPC m) (fetched m)
  | 0x4 => execJSR (incPC m) (fetched m)
  | 0x5 => execAND (incPC m) (fetched m)
  | 0x6 => execLDR (incPC m) (fetched m)
  | 0x7 => execSTR (incPC m) (fetched m)
  | 0x8 => StepResult.err 3 (incPC m)    -- RTI: "Cannot use RTI in non-supervisor mode"
  | 0x9 => execNOT (incPC m) (fetched m)
  | 0xa => execLDI (incPC m) (fetched m)
  | 0xb => execSTI (incPC m) (fetched m)
  | 0xc => execJMP (incPC m) (fetched m)
  | 0xd => StepResult.err 3 (incPC m)    -- Reserved instruction
  | 0xe => execLEA (incPC m) (fetched m)
  | 0xf => execTRAP (incPC m) (fetched m)
  | _ => StepResult.ub            -- unreachable: a 4-bit field is < 16

/-- Run the loop with fuel.  On `goto halt` the program executes
`print_on_new_line(); return ERR_OK;`; on an instruction error it returns the
error code with stdout as printed so far.  `none`: out of fuel, an
out-of-bounds access, or a diverging trap loop. -/
def run (fuel : Nat) (m : Machine) (acc : List Nat) : Option (Nat × List Nat) :=
  match fuel with
  | 0 => none
  | fuel + 1 =>
    match step m with
    | StepResult.next m' out => run fuel m' (acc ++ out)
    | StepResult.halted m' out =>
      some (0, acc ++ out ++ print_on_new_line (flagAfter m'.lineFlag out))
    | StepResult.err code _ => some (code, acc)
    | StepResult.ub => none
    | StepResult.diverge => none

/-- The machine state after the loader has placed `words` at `origin` and
`main` has reset the registers (`pc = origin; cc = 0x2; registers[i] = 0`).
Untouched memory is zero (static storage). -/
def initMachine (origin : Nat) (words : List Nat) (stdin : Nat → Int) : Machine :=
  { mem := fun a =>
      if origin ≤ a ∧ a < origin + words.length then words.getD (a - origin) 0 else 0
    reg := fun _ => 0
    pc := origin
    cc := 0x2
    lineFlag := true
    stdin := stdin
    stdinPos := 0 }

/-- Exactly one of the three condition-code flags (POSITIVE `0x1`,
ZERO `0x2`, NEGATIVE `0x4`) is set. -/
def ccValid (c : Nat) : Prop := c = 0x1 ∨ c = 0x2 ∨ c = 0x4

/-- The condition code of the machine a step result carries (for results
with no machine, the condition code `d` the machine had before). -/
def ccAfter : StepResult → Nat → Nat
  | StepResult.next m _, _ => m.cc
  | StepResult.halted m _, _ => m.cc
  | StepResult.err _ m, _ => m.cc
  | _, d => d

/-- Condition-code contract of one dispatched instruction on machine `m`:
the resulting condition code is one of the three flags, and whenever the
loop continues, either the condition code is untouched or it equals
`set_cc` of the signed reading of a value just stored in a register. -/
def ccOK (r : StepResult) (m : Machine) : Prop :=
  ccValid (ccAfter r m.cc) ∧
  ∀ m' out, r = StepResult.next m' out →
    m'.cc = m.cc ∨ ∃ j, j < 8 ∧ m'.cc = set_cc (toSigned (m'.reg j))

/-- A machine about to execute `ST R0, #1` fetched at address 0xFFFE:
after the fetch the PC is 0xFFFF and the effective address is
65535 + 1 = 65536. -/
def storeWrapMachine : Machine :=
  { mem := fun a => if a = 0xFFFE then 0x3001 else 0
    reg := fun _ => 0, pc := 0xFFFE, cc := 0x2, lineFlag := true
    stdin := fun _ => 0, stdinPos := 0 }

/-- Memory for the PUTSP probe: word 0 is 0x6869 (high byte 'h' = 0x68,
low byte 'i' = 0x69), word 1 is 0. -/
def putspMem : Nat → Nat := fun a => if a = 0 then 0x6869 else 0

/-- A machine whose next instruction word is 0x0000 (opcode BR, all-zero
condition field). -/
def nopMachine : Machine :=
  { mem := fun _ => 0, reg := fun _ => 0, pc := 0, cc := 0x2, lineFlag := true
    stdin := fun _ => 0, stdinPos := 0 }

/-- A machine whose next instruction word is 0x0001 (opcode BR, zero
condition field, nonzero offset). -/
def brZeroMachine : Machine :=
  { mem := fun _ => 1, reg := fun _ => 0, pc := 0, cc := 0x2, lineFlag := true
    stdin := fun _ => 0, stdinPos := 0 }

/-- The loaded image of the "hi" test program at origin 0x3000:
`LEA R0, label; PUTS; HALT`, then `label`: 'h', 'i', 0. -/
def hiProgram : List Nat := [0xE002, 0xF022, 0xF025, 0x68, 0x69, 0]

/-- The "hi" program machine right after loading. -/
def hiStart : Machine := initMachine 0x3000 hiProgram (fun _ => 0)

/-- The "hi" program machine after the LEA (R0 = 0x3003). -/
def hiAfterLEA : Machine :=
  { hiStart with
    pc := 0x3001,
    reg := fun j => if j = 0 then 0x3003 else hiStart.reg j }

/-- The "hi" program machine after the PUTS ("hi" printed, not
newline-terminated). -/
def hiAfterPUTS : Machine := { hiAfterLEA with pc := 0x3002, lineFlag := false }

/-- The "hi" program machine when HALT is reached. -/
def hiAtHALT : Machine := { hiAfterPUTS with pc := 0x3003 }

/-- A machine whose next instruction word is `JSR #2` (0x4802) at 0x3000,
with `RET` (0xC1C0) placed at the subroutine address 0x3003. -/
def jsrMachine : Machine :=
  { mem := fun a => if a = 0x3000 then 0x4802 else if a = 0x3003 then 0xC1C0 else 0
    reg := fun _ => 0, pc := 0x3000, cc := 0x2, lineFlag := true
    stdin := fun _ => 0, stdinPos := 0 }

/-- The machine `jsrMachine` reaches at its subroutine (PC 0x3003, R7 holds
the return address 0x3001). -/
def jsrSubMachine : Machine :=
  { jsrMachine with
    pc := 0x3003,
    reg := fun j => if j = 7 then 0x3001 else jsrMachine.reg j }

/-- A machine whose next instruction word is 0x1018: ADD in register mode
(bit 5 = 0) with nonzero padding bits 4-3. -/
def addPadMachine : Machine :=
  { mem := fun _ => 0x1018, reg := fun _ => 0, pc := 0, cc := 0x2, lineFlag := true
    stdin := fun _ => 0, stdinPos := 0 }

/-- A machine whose next instruction word is `LEA R0, #255` (0xE0FF). -/
def leaMachine : Machine :=
  { mem := fun _ => 0xE0FF, reg := fun _ => 0, pc := 0, cc := 0x2, lineFlag := true
    stdin := fun _ => 0, stdinPos := 0 }

/-- A machine whose next instruction word is `ADD R0, R0, #1` (0x1021). -/
def addImmMachine : Machine :=
  { mem := fun _ => 0x1021, reg := fun _ => 0, pc := 0, cc := 0x2, lineFlag := true
    stdin := fun _ => 0, stdinPos := 0 }

/-- The machine `addImmMachine` reaches after its ADD: R0 = 1, condition
code POSITIVE. -/
def addImmResult : Machine :=
  { addImmMachine with
    pc := 1,
    cc := 0x1,
    reg := fun j => if j = 0 then 1 else addImmMachine.reg j }

/-! Helper lemmas about the arithmetic conversions. -/

lemma wrapSigned_bounds (z : Int) : -32768 ≤ wrapSigned z ∧ wrapSigned z < 32768 := by
  unfold wrapSigned
  have h1 : 0 ≤ z % 65536 := Int.emod_nonneg z (by norm_num)
  have h2 : z % 65536 < 65536 := Int.emod_lt_of_pos z (by norm_num)
  split <;> omega

lemma wrapSigned_self (z : Int) (h1 : -32768 ≤ z) (h2 : z < 32768) : wrapSigned z = z := by
  unfold wrapSigned
  omega

lemma wrapSigned_wrapSigned (z : Int) : wrapSigned (wrapSigned z) = wrapSigned z :=
  wrapSigned_self _ (wrapSigned_bounds z).1 (wrapSigned_bounds z).2

lemma toSigned_toWord (z : Int) : toSigned (toWord z) = wrapSigned z := by
  unfold toSigned toWord wrapSigned
  have h1 : 0 ≤ z % 65536 := Int.emod_nonneg z (by norm_num)
  have h2 : z % 65536 < 65536 := Int.emod_lt_of_pos z (by norm_num)
  split_ifs <;> omega

lemma set_cc_valid (r : Int) : ccValid (set_cc r) := by
  unfold set_cc ccValid
  split_ifs <;> simp

/-- A 3-bit field is below 8. -/
lemma bits_reg_a_lt_8 (i : Nat) : bits_reg_a i < 8 := by
  have : bits i 11 9 ≤ 7 := Nat.and_le_right
  unfold bits_reg_a
  omega

/-! Helper lemmas for the sign-extension closed form (claim C9). -/

lemma xor_two_pow_of_lt {k v : Nat} (h : v < 2 ^ k) : v ^^^ 2 ^ k = v + 2 ^ k := by
  induction k generalizing v with
  | zero =>
    interval_cases v
    decide
  | succ k ih =>
    have h1 : Nat.bit (Nat.bodd v) (Nat.div2 v) = v := Nat.bit_decomp v
    have h2 : Nat.bit false (2 ^ k) = 2 ^ (k + 1) := by
      simp [Nat.bit, Nat.pow_succ, Nat.mul_comm]
    have hd : Nat.div2 v < 2 ^ k := by
      rw [Nat.div2_val]
      rw [Nat.div_lt_iff_lt_mul (by norm_num : 0 < 2)]
      calc v < 2 ^ (k + 1) := h
        _ = 2 ^ k * 2 := by rw [Nat.pow_succ]
    rw [← h1, ← h2, Nat.xor_bit, ih hd]
    have hb : bne (Nat.bodd v) false = Nat.bodd v := by cases Nat.bodd v <;> rfl
    rw [hb]
    have hv1 : Nat.bit (Nat.bodd v) (Nat.div2 v) = 2 * Nat.div2 v + (Nat.bodd v).toNat :=
      Nat.bit_val _ _
    have hv2 : Nat.bit (Nat.bodd v) (Nat.div2 v + 2 ^ k) =
        2 * (Nat.div2 v + 2 ^ k) + (Nat.bodd v).toNat := Nat.bit_val _ _
    have hp : 2 ^ (k + 1) = 2 ^ k * 2 := Nat.pow_succ 2 k
    have ht : (Nat.bodd v).toNat ≤ 1 := by cases Nat.bodd v <;> simp
    omega

lemma xor_two_pow_of_ge {k v : Nat} (hge : 2 ^ k ≤ v) (hlt : v < 2 ^ (k + 1)) :
    v ^^^ 2 ^ k = v - 2 ^ k := by
  have hp : 2 ^ (k + 1) = 2 ^ k * 2 := Nat.pow_succ 2 k
  have h1 : v - 2 ^ k < 2 ^ k := by omega
  have h2 : (v - 2 ^ k) ^^^ 2 ^ k = v := by rw [xor_two_pow_of_lt h1]; omega
  calc v ^^^ 2 ^ k = ((v - 2 ^ k) ^^^ 2 ^ k) ^^^ 2 ^ k := by rw [h2]
    _ = v - 2 ^ k := Nat.xor_cancel_right _ _

/-- Closed form of `sign_extend` on in-range inputs: identity below the sign
bit, shifted down by `2 ^ width` at and above it. -/
lemma sign_extend_eq {width v : Nat} (hw1 : 1 ≤ width) (hw16 : width ≤ 16)
    (hv : v < 2 ^ width) :
    sign_extend v width =
      if v < 2 ^ (width - 1) then (v : Int) else (v : Int) - ((2 ^ width : Nat) : Int) := by
  obtain ⟨w, rfl⟩ : ∃ w, width = w + 1 := ⟨width - 1, by omega⟩
  have hw15 : w ≤ 15 := by omega
  have hP : 2 ^ (w + 1) = 2 ^ w * 2 := Nat.pow_succ 2 w
  have hP16 : 2 ^ w ≤ 32768 := by
    calc 2 ^ w ≤ 2 ^ 15 := Nat.pow_le_pow_right (by norm_num) hw15
      _ = 32768 := by norm_num
  have hs : 1 <<< (w + 1 - 1) = 2 ^ w := by simp [Nat.shiftLeft_eq]
  unfold sign_extend
  rw [hs]
  rcases Nat.lt_or_ge v (2 ^ w) with hv1 | hv1
  · rw [xor_two_pow_of_lt hv1, if_pos (by simpa using hv1)]
    unfold toSigned wrapSigned
    split_ifs <;> omega
  · rw [xor_two_pow_of_ge hv1 hv, if_neg (by simpa using Nat.not_lt.mpr hv1)]
    unfold toSigned wrapSigned
    split_ifs <;> omega

lemma bits_eq_div_mod (w hi lo : Nat) :
    bits w hi lo = w / 2 ^ lo % 2 ^ (hi - lo + 1) := by
  unfold bits
  rw [Nat.shiftRight_eq_div_pow, Nat.shiftLeft_eq, one_mul,
    Nat.and_pow_two_sub_one_eq_mod]

/-! Helper lemmas for the PUTS scan (claims C10 and C4). -/

lemma scanPuts_none (mem : Nat → Nat) :
    ∀ fuel s, (∀ j, j < fuel → mem ((s + j) % 65536) % 256 ≠ 0) →
      scanPuts mem s fuel = none := by
  intro fuel
  induction fuel with
  | zero => intro s _; rfl
  | succ n ih =>
    intro s h
    have h0 : mem (s % 65536) % 256 ≠ 0 := by
      have := h 0 (Nat.succ_pos n)
      simpa using this
    have hrec : scanPuts mem ((s + 1) % 65536) n = none := by
      apply ih
      intro j hj
      have := h (j + 1) (by omega)
      rw [Nat.mod_add_mod]
      simpa [Nat.add_assoc, Nat.add_comm 1 j] using this
    simp only [scanPuts]
    rw [if_neg h0, hrec]

lemma scanPuts_found (mem : Nat → Nat) :
    ∀ k s fuel, k < fuel →
      (∀ j, j < k → mem ((s + j) % 65536) % 256 ≠ 0) →
      mem ((s + k) % 65536) % 256 = 0 →
      scanPuts mem s fuel =
        some ((List.range k).map fun j => mem ((s + j) % 65536) % 256) := by
  intro k
  induction k with
  | zero =>
    intro s fuel hf _ h0
    obtain ⟨n, rfl⟩ : ∃ n, fuel = n + 1 := ⟨fuel - 1, by omega⟩
    simp only [scanPuts]
    rw [if_pos (by simpa using h0)]
    simp
  | succ k ih =>
    intro s fuel hf hne h0
    obtain ⟨n, rfl⟩ : ∃ n, fuel = n + 1 := ⟨fuel - 1, by omega⟩
    have hs0 : mem (s % 65536) % 256 ≠ 0 := by
      have := hne 0 (Nat.succ_pos k)
      simpa using this
    have hrec : scanPuts mem ((s + 1) % 65536) n =
        some ((List.range k).map fun j => mem (((s + 1) % 65536 + j) % 65536) % 256) := by
      apply ih _ _ (by omega)
      · intro j hj
        rw [Nat.mod_add_mod]
        have := hne (j + 1) (by omega)
        simpa [Nat.add_assoc, Nat.add_comm 1 j] using this
      · rw [Nat.mod_add_mod]
        have he : s + 1 + k = s + (k + 1) := by omega
        rw [he]
        exact h0
    simp only [scanPuts]
    rw [if_neg hs0, hrec, List.range_succ_eq_map]
    simp only [List.map_cons, List.map_map, Option.some.injEq, List.cons.injEq]
    constructor
    · simp
    · refine List.map_congr_left ?_
      intro j _
      simp only [Function.comp_apply]
      rw [Nat.mod_add_mod]
      congr 2
      omega

lemma scanPuts_isSome_exists (mem : Nat → Nat) (fuel s : Nat)
    (h : (scanPuts mem s fuel).isSome) :
    ∃ a, a < 65536 ∧ mem a % 256 = 0 := by
  by_contra hno
  push_neg at hno
  have hall : ∀ j, j < fuel → mem ((s + j) % 65536) % 256 ≠ 0 := by
    intro j _
    exact hno _ (Nat.mod_lt _ (by norm_num))
  rw [scanPuts_none mem fuel s hall] at h
  simp at h

lemma exists_scanPuts_isSome (mem : Nat → Nat) (s : Nat)
    (h : ∃ a, a < 65536 ∧ mem a % 256 = 0) :
    (scanPuts mem s 65536).isSome := by
  obtain ⟨a, ha, hz⟩ := h
  have hj0 : mem ((s + (a + 65536 - s % 65536) % 65536) % 65536) % 256 = 0 := by
    have harith : (s + (a + 65536 - s % 65536) % 65536) % 65536 = a := by omega
    rw [harith]
    exact hz
  have hex : ∃ j, mem ((s + j) % 65536) % 256 = 0 := ⟨_, hj0⟩
  have hk : mem ((s + Nat.find hex) % 65536) % 256 = 0 := Nat.find_spec hex
  have hmin : ∀ j, j < Nat.find hex → mem ((s + j) % 65536) % 256 ≠ 0 :=
    fun j hj => Nat.find_min hex hj
  have hklt : Nat.find hex < 65536 := by
    have hle : Nat.find hex ≤ (a + 65536 - s % 65536) % 65536 := Nat.find_min' hex hj0
    have : (a + 65536 - s % 65536) % 65536 < 65536 := Nat.mod_lt _ (by norm_num)
    omega
  rw [scanPuts_found mem (Nat.find hex) s 65536 hklt hmin hk]
  rfl

/-- Evaluating `execTRAP` on the PUTS vector word 0xF022. -/
lemma execTRAP_puts (m : Machine) :
    execTRAP m 0xF022 =
      match scanPuts m.mem (m.reg 0 % 65536) 65536 with
      | some out => StepResult.next { m with lineFlag := flagAfter m.lineFlag out } out
      | none => StepResult.diverge := rfl

/-! Step lemmas for the concrete "hi" program (claim C4). -/

set_option maxRecDepth 8000

lemma hi_step_lea : step hiStart = StepResult.next hiAfterLEA [] := rfl

lemma hi_scan : scanPuts hiAfterLEA.mem 0x3003 65536 = some [104, 105] := by
  simp [scanPuts, hiAfterLEA, hiStart, initMachine, hiProgram]

lemma hi_step_puts : step hiAfterLEA = StepResult.next hiAfterPUTS [104, 105] := by
  show execTRAP { hiAfterLEA with pc := 0x3002 } 0xF022 = _
  rw [execTRAP_puts]
  rw [show ({ hiAfterLEA with pc := 0x3002 } : Machine).reg 0 % 65536 = 0x3003 from rfl,
      show ({ hiAfterLEA with pc := 0x3002 } : Machine).mem = hiAfterLEA.mem from rfl,
      hi_scan]
  rfl

lemma hi_step_halt : step hiAfterPUTS = StepResult.halted hiAtHALT [] := rfl

/-- C1: the spec claims the store address wraps modulo 65536, so that a
store to an address computed as 65535 + 1 writes memory address 0.  The code
computes `memory[pc + pc_offset]` with the sum in C `int`; executing
`ST R0, #1` fetched at 0xFFFE (incremented PC 0xFFFF, offset +1) the index
is exactly 65535 + 1 = 65536, one past the end of the 65536-word array: an
out-of-bounds write (undefined behavior), not a write to address 0. -/
theorem c1_store_address_65536_out_of_bounds :
    ((0xFFFF : Int) + bits_pc_offset_9 0x3001 = 65536) ∧
    memWrite (incPC storeWrapMachine) 65536 0 = none ∧
    step storeWrapMachine = StepResult.ub := by
  refine ⟨by decide, ?_, rfl⟩
  unfold memWrite
  norm_num

/-- C2: the spec claims PUTSP writes each word's low byte first and then its
high byte.  The code builds `chars[0] = (char)(word >> 8)` (the HIGH byte)
and prints it first.  On memory holding 0x6869 ('h' = 0x68 in the high byte,
'i' = 0x69 in the low byte) at the start address, the scan prints 0x68 then
0x69 — high byte first — where the claim predicts 0x69 then 0x68. -/
theorem c2_putsp_prints_high_byte_first :
    scanPutsp putspMem 0 65536 = some [0x68, 0x69] ∧
    scanPutsp putspMem 0 65536 ≠ some [0x69, 0x68] := by
  have h : scanPutsp putspMem 0 65536 = some [0x68, 0x69] := by
    simp [scanPutsp, putspMem]
  exact ⟨h, by rw [h]; simp⟩

/-- C3 counterexample: the instruction word 0x0000 has opcode BR and an
all-zero condition field, yet the loop skips it as a NOP
(`if (instruction == 0x0000) continue;`) — execution continues with only
the PC incremented, and no instruction-error abort happens. -/
theorem c3_counterexample_zero_word_is_noop :
    step nopMachine = StepResult.next (incPC nopMachine) [] ∧
    step nopMachine ≠ StepResult.err 3 (incPC nopMachine) := by
  refine ⟨rfl, ?_⟩
  rw [show step nopMachine = StepResult.next (incPC nopMachine) [] from rfl]
  simp

/-- C3 amended: a BR-opcode word with an all-zero condition field aborts
with the instruction-error exit code 3 — except the all-zero word 0x0000,
which is skipped as a NOP before the condition check. -/
theorem c3_br_zero_condition_errors_except_nop (m : Machine)
    (hop : bits (fetched m) 15 12 = 0x0)
    (hcond : bits (fetched m) 11 9 = 0) :
    (fetched m ≠ 0 → step m = StepResult.err 3 (incPC m)) ∧
    (fetched m = 0 → step m = StepResult.next (incPC m) []) := by
  constructor <;> intro h
  · unfold step
    split <;> rename_i hsp <;> first
    | (simp only [execBR, bits_reg_a]
       simp [h, hcond, bits_reg_a])
    | omega
    | simp_all
  · unfold step
    split <;> rename_i hsp <;> first
    | (simp [execBR, h]
       done)
    | omega
    | simp_all

/-- C3 witness: the word 0x0001 (opcode BR, zero condition field, offset 1)
aborts with exit code 3. -/
theorem c3_br_zero_condition_witness :
    step brZeroMachine = StepResult.err 3 (incPC brZeroMachine) :=
  (c3_br_zero_condition_errors_except_nop brZeroMachine (by decide) (by decide)).1
    (by decide)

/-- C4 counterexample: running the loaded "hi" image, the program writes
'h', 'i' AND a trailing newline (the `print_on_new_line()` call at the
`halt:` label, because the output did not end in a newline), before exiting
with code 0 — not exactly the two characters the claim states. -/
theorem c4_counterexample_trailing_newline :
    run 10 hiStart [] = some (0, [104, 105, 10]) ∧
    run 10 hiStart [] ≠ some (0, [104, 105]) := by
  have e1 : run 10 hiStart [] = run 9 hiAfterLEA [] := by
    conv_lhs => rw [show (10 : Nat) = 9 + 1 from rfl, run.eq_def]
    rw [hi_step_lea]; exact rfl
  have e2 : run 9 hiAfterLEA [] = run 8 hiAfterPUTS [104, 105] := by
    conv_lhs => rw [show (9 : Nat) = 8 + 1 from rfl, run.eq_def]
    rw [hi_step_puts]; exact rfl
  have e3 : run 8 hiAfterPUTS [104, 105] = some (0, [104, 105, 10]) := by
    conv_lhs => rw [show (8 : Nat) = 7 + 1 from rfl, run.eq_def]
    rw [hi_step_halt]; exact rfl
  rw [e1, e2, e3]
  simp

/-- C4 amended: the "hi" image prints 'h' (104), 'i' (105) and then one
newline appended at halt (because the PUTS output did not end in a newline),
and the process exits with code 0 (ERR_OK). -/
theorem c4_hi_program_runs :
    run 10 hiStart [] = some (0, [104, 105, 10]) := by
  have e1 : run 10 hiStart [] = run 9 hiAfterLEA [] := by
    conv_lhs => rw [show (10 : Nat) = 9 + 1 from rfl, run.eq_def]
    rw [hi_step_lea]; exact rfl
  have e2 : run 9 hiAfterLEA [] = run 8 hiAfterPUTS [104, 105] := by
    conv_lhs => rw [show (9 : Nat) = 8 + 1 from rfl, run.eq_def]
    rw [hi_step_puts]; exact rfl
  have e3 : run 8 hiAfterPUTS [104, 105] = some (0, [104, 105, 10]) := by
    conv_lhs => rw [show (8 : Nat) = 7 + 1 from rfl, run.eq_def]
    rw [hi_step_halt]; exact rfl
  rw [e1, e2, e3]

/-- C6: JSR/JSRR first write R7 = PC (the already-incremented PC, i.e. the
address of the following instruction), then jump: PC += sext11 for JSR (bit
11 set), PC = BaseR for JSRR (reading the register file after the R7 write,
as the code does); and a RET (JMP R7, word 0xC1C0) executed while R7 still
holds that link value resumes at the instruction after the JSR. -/
theorem c6_jsr_jsrr_link_register :
    (∀ m, bits (fetched m) 15 12 = 0x4 → bits (fetched m) 11 11 ≠ 0 →
      ∃ m', step m = StepResult.next m' [] ∧
        m'.reg 7 = (m.pc + 1) % 65536 ∧
        m'.pc = toWord ((((m.pc + 1) % 65536 : Nat) : Int) + bits_pc_offset_11 (fetched m)) ∧
        m'.mem = m.mem ∧ m'.cc = m.cc) ∧
    (∀ m, bits (fetched m) 15 12 = 0x4 → bits (fetched m) 11 11 = 0 →
      bits (fetched m) 11 9 = 0 → bits (fetched m) 5 0 = 0 →
      ∃ m', step m = StepResult.next m' [] ∧
        m'.reg 7 = (m.pc + 1) % 65536 ∧
        m'.pc = m'.reg (bits_reg_b (fetched m)) % 65536 ∧
        m'.mem = m.mem ∧ m'.cc = m.cc) ∧
    (∀ m, fetched m = 0xC1C0 →
      ∃ m', step m = StepResult.next m' [] ∧
        m'.pc = m.reg 7 % 65536 ∧ m'.reg = m.reg ∧ m'.mem = m.mem ∧ m'.cc = m.cc) ∧
    (∀ m msub, bits (fetched m) 15 12 = 0x4 → bits (fetched m) 11 11 ≠ 0 →
      msub.reg 7 = (m.pc + 1) % 65536 → fetched msub = 0xC1C0 →
      ∃ m', step msub = StepResult.next m' [] ∧ m'.pc = (m.pc + 1) % 65536) := by
  refine ⟨?_, ?_, ?_, ?_⟩
  · intro m hop hbit
    unfold step
    split <;> rename_i hsp <;> first
    | (simp only [execJSR]
       rw [if_pos hbit]
       refine ⟨_, rfl, ?_, rfl, rfl, rfl⟩
       simp [setReg, incPC])
    | omega
    | simp_all
  · intro m hop hbit hpad1 hpad2
    unfold step
    split <;> rename_i hsp <;> first
    | (simp only [execJSR]
       rw [if_neg (by simp [hbit]), if_neg (by simp [hpad1, hpad2])]
       refine ⟨_, rfl, ?_, rfl, rfl, rfl⟩
       simp [setReg, incPC])
    | omega
    | simp_all
  · intro m heq
    unfold step
    rw [heq]
    exact ⟨{ incPC m with pc := (incPC m).reg 7 % 65536 }, rfl, rfl, rfl, rfl, rfl⟩
  · intro m msub hop hbit h7 hret
    unfold step
    rw [hret]
    refine ⟨{ incPC msub with pc := (incPC msub).reg 7 % 65536 }, rfl, ?_⟩
    show msub.reg 7 % 65536 = (m.pc + 1) % 65536
    rw [h7]
    omega

/-- C6 witness: `JSR #2` fetched at 0x3000 stores the return address 0x3001
in R7 and jumps to 0x3003; the RET there resumes at 0x3001. -/
theorem c6_jsr_jsrr_link_register_witness :
    (∃ m', step jsrMachine = StepResult.next m' [] ∧
      m'.reg 7 = (jsrMachine.pc + 1) % 65536 ∧
      m'.pc = toWord (((jsrMachine.pc + 1) % 65536 : Nat) +
        bits_pc_offset_11 (fetched jsrMachine)) ∧
      m'.mem = jsrMachine.mem ∧ m'.cc = jsrMachine.cc) ∧
    (∃ m', step jsrSubMachine = StepResult.next m' [] ∧
      m'.pc = (jsrMachine.pc + 1) % 65536) :=
  ⟨c6_jsr_jsrr_link_register.1 jsrMachine (by decide) (by decide),
   c6_jsr_jsrr_link_register.2.2.2 jsrMachine jsrSubMachine (by decide) (by decide)
     (by decide) (by decide)⟩

/-- C7: an ADD in register mode (bit 5 = 0) with nonzero padding bits 4-3
aborts with the instruction error (process exit code 3, ERR_INSTRUCTION);
the state at the abort has the registers, condition code and memory exactly
as before the instruction (only the PC was incremented by the fetch). -/
theorem c7_add_register_padding_error (m : Machine)
    (hop : bits (fetched m) 15 12 = 0x1)
    (hmode : bits (fetched m) 5 5 = 0)
    (hpad : bits (fetched m) 4 3 ≠ 0) :
    step m = StepResult.err 3 (incPC m) ∧
    (incPC m).reg = m.reg ∧ (incPC m).cc = m.cc ∧ (incPC m).mem = m.mem := by
  refine ⟨?_, rfl, rfl, rfl⟩
  unfold step
  split <;> rename_i hsp <;> first
  | (simp only [execADD]
     rw [if_pos hmode, if_pos hpad])
  | omega
  | simp_all

/-- C7 witness: the word 0x1018 (ADD register mode, padding bits 4-3 = 3)
aborts with exit code 3 and no register/cc/memory change. -/
theorem c7_add_register_padding_error_witness :
    step addPadMachine = StepResult.err 3 (incPC addPadMachine) ∧
    (incPC addPadMachine).reg = addPadMachine.reg ∧
    (incPC addPadMachine).cc = addPadMachine.cc ∧
    (incPC addPadMachine).mem = addPadMachine.mem :=
  c7_add_register_padding_error addPadMachine (by decide) (by decide) (by decide)

/-- C8: LEA sets the destination register to the already-incremented PC plus
the sign-extended 9-bit offset (as a wrapped 16-bit word), and leaves the
condition code, all other registers, all of memory and the output-line flag
unchanged (this implementation's LEA does not update CC). -/
theorem c8_lea_effect (m : Machine)
    (hop : bits (fetched m) 15 12 = 0xe) :
    ∃ m', step m = StepResult.next m' [] ∧
      m'.reg (bits_reg_a (fetched m)) =
        toWord ((((m.pc + 1) % 65536 : Nat) : Int) + bits_pc_offset_9 (fetched m)) ∧
      m'.cc = m.cc ∧
      (∀ j, j ≠ bits_reg_a (fetched m) → m'.reg j = m.reg j) ∧
      m'.mem = m.mem ∧ m'.pc = (m.pc + 1) % 65536 ∧ m'.lineFlag = m.lineFlag := by
  unfold step
  split <;> rename_i hsp <;> first
  | (simp only [execLEA]
     refine ⟨_, rfl, ?_, rfl, ?_, rfl, rfl, rfl⟩
     · simp [setReg, incPC]
     · intro j hj
       simp [setReg, incPC, hj])
  | omega
  | simp_all

/-- C8 witness: `LEA R0, #255` fetched at address 0 sets R0 to 1 + 255 = 256
and changes nothing else. -/
theorem c8_lea_effect_witness :
    ∃ m', step leaMachine = StepResult.next m' [] ∧
      m'.reg (bits_reg_a (fetched leaMachine)) =
        toWord (((leaMachine.pc + 1) % 65536 : Nat) +
          bits_pc_offset_9 (fetched leaMachine)) ∧
      m'.cc = leaMachine.cc ∧
      (∀ j, j ≠ bits_reg_a (fetched leaMachine) → m'.reg j = leaMachine.reg j) ∧
      m'.mem = leaMachine.mem ∧ m'.pc = (leaMachine.pc + 1) % 65536 ∧
      m'.lineFlag = leaMachine.lineFlag :=
  c8_lea_effect leaMachine (by decide)

/-! Condition-code case lemmas for claim C5. -/

lemma ccOK_err (c : Nat) (m m₁ : Machine) (hcc : m₁.cc = m.cc) (h : ccValid m.cc) :
    ccOK (StepResult.err c m₁) m := by
  refine ⟨?_, ?_⟩
  · show ccValid m₁.cc
    rw [hcc]
    exact h
  · intro m' out h'
    cases h'

lemma ccOK_next_same (m m₁ : Machine) (out : List Nat) (hcc : m₁.cc = m.cc)
    (h : ccValid m.cc) : ccOK (StepResult.next m₁ out) m := by
  refine ⟨?_, ?_⟩
  · show ccValid m₁.cc
    rw [hcc]
    exact h
  · intro m' out' h'
    injection h' with e1 e2
    subst e1
    left
    exact hcc

lemma ccOK_halted (m m₁ : Machine) (out : List Nat) (hcc : m₁.cc = m.cc)
    (h : ccValid m.cc) : ccOK (StepResult.halted m₁ out) m := by
  refine ⟨?_, ?_⟩
  · show ccValid m₁.cc
    rw [hcc]
    exact h
  · intro m' out' h'
    cases h'

lemma ccOK_ub (m : Machine) (h : ccValid m.cc) : ccOK StepResult.ub m :=
  ⟨h, fun _ _ h' => by cases h'⟩

lemma ccOK_diverge (m : Machine) (h : ccValid m.cc) : ccOK StepResult.diverge m :=
  ⟨h, fun _ _ h' => by cases h'⟩

lemma ccOK_setcc (m : Machine) (dr : Nat) (hdr : dr < 8) (v : Nat) (r : Int)
    (hr : set_cc r = set_cc (toSigned v)) (out : List Nat) :
    ccOK (StepResult.next { setReg m dr v with cc := set_cc r } out) m := by
  refine ⟨set_cc_valid r, ?_⟩
  intro m' out' h'
  injection h' with e1 e2
  subst e1
  right
  refine ⟨dr, hdr, ?_⟩
  simpa [setReg] using hr

lemma memWrite_cc {m : Machine} {a : Int} {v : Nat} {m' : Machine}
    (h : memWrite m a v = some m') : m'.cc = m.cc := by
  unfold memWrite at h
  split_ifs at h
  injection h with e
  rw [← e]

lemma ccOK_execADD (m : Machine) (i : Nat) (h : ccValid m.cc) : ccOK (execADD m i) m := by
  simp only [execADD]
  split_ifs with h1 h2
  · exact ccOK_err _ _ _ rfl h
  · exact ccOK_setcc _ _ (bits_reg_a_lt_8 i) _ _
      (by rw [toSigned_toWord, wrapSigned_wrapSigned]) _
  · exact ccOK_setcc _ _ (bits_reg_a_lt_8 i) _ _
      (by rw [toSigned_toWord, wrapSigned_wrapSigned]) _

lemma ccOK_execAND (m : Machine) (i : Nat) (h : ccValid m.cc) : ccOK (execAND m i) m := by
  simp only [execAND]
  split_ifs with h1 h2
  · exact ccOK_err _ _ _ rfl h
  · exact ccOK_setcc _ _ (bits_reg_a_lt_8 i) _ _ rfl _
  · exact ccOK_setcc _ _ (bits_reg_a_lt_8 i) _ _ rfl _

lemma ccOK_execNOT (m : Machine) (i : Nat) (h : ccValid m.cc) : ccOK (execNOT m i) m := by
  simp only [execNOT]
  split_ifs with h1
  · exact ccOK_err _ _ _ rfl h
  · exact ccOK_setcc _ _ (bits_reg_a_lt_8 i) _ _ rfl _

lemma ccOK_execLD (m : Machine) (i : Nat) (h : ccValid m.cc) : ccOK (execLD m i) m := by
  unfold execLD
  dsimp only
  cases hmr : memRead m ((m.pc : Int) + bits_pc_offset_9 i)
  · exact ccOK_ub m h
  · exact ccOK_setcc _ _ (bits_reg_a_lt_8 i) _ _ rfl _

lemma ccOK_execLDI (m : Machine) (i : Nat) (h : ccValid m.cc) : ccOK (execLDI m i) m := by
  unfold execLDI
  dsimp only
  cases hmr : memRead m ((m.pc : Int) + bits_pc_offset_9 i)
  · exact ccOK_ub m h
  · exact ccOK_setcc _ _ (bits_reg_a_lt_8 i) _ _ rfl _

lemma ccOK_execLDR (m : Machine) (i : Nat) (h : ccValid m.cc) : ccOK (execLDR m i) m := by
  unfold execLDR
  dsimp only
  cases hmr : memRead m (((m.reg (bits_reg_b i) % 65536 : Nat) : Int) + bits_offset_6 i)
  · exact ccOK_ub m h
  · exact ccOK_setcc _ _ (bits_reg_a_lt_8 i) _ _ rfl _

lemma ccOK_execST (m : Machine) (i : Nat) (h : ccValid m.cc) : ccOK (execST m i) m := by
  unfold execST
  dsimp only
  cases hmw : memWrite m ((m.pc : Int) + bits_pc_offset_9 i) (m.reg (bits_reg_a i) % 65536)
  · exact ccOK_ub m h
  · exact ccOK_next_same _ _ _ (memWrite_cc hmw) h

lemma ccOK_execSTI (m : Machine) (i : Nat) (h : ccValid m.cc) : ccOK (execSTI m i) m := by
  unfold execSTI
  dsimp only
  cases hmr : memRead m ((m.pc : Int) + bits_pc_offset_9 i)
  · exact ccOK_ub m h
  · exact ccOK_next_same _ _ _ rfl h

lemma ccOK_execSTR (m : Machine) (i : Nat) (h : ccValid m.cc) : ccOK (execSTR m i) m := by
  unfold execSTR
  dsimp only
  cases hmw : memWrite m (((m.reg (bits_reg_b i) % 65536 : Nat) : Int) + bits_offset_6 i)
    (m.reg (bits_reg_a i) % 65536)
  · exact ccOK_ub m h
  · exact ccOK_next_same _ _ _ (memWrite_cc hmw) h

lemma ccOK_execBR (m : Machine) (i : Nat) (h : ccValid m.cc) : ccOK (execBR m i) m := by
  simp only [execBR]
  split_ifs with h1 h2 h3
  · exact ccOK_next_same _ _ _ rfl h
  · exact ccOK_err _ _ _ rfl h
  · exact ccOK_next_same _ _ _ rfl h
  · exact ccOK_next_same _ _ _ rfl h

lemma ccOK_execJMP (m : Machine) (i : Nat) (h : ccValid m.cc) : ccOK (execJMP m i) m := by
  simp only [execJMP]
  split_ifs with h1
  · exact ccOK_err _ _ _ rfl h
  · exact ccOK_next_same _ _ _ rfl h

lemma ccOK_execJSR (m : Machine) (i : Nat) (h : ccValid m.cc) : ccOK (execJSR m i) m := by
  simp only [execJSR]
  split_ifs with h1 h2
  · exact ccOK_next_same _ _ _ rfl h
  · exact ccOK_err _ _ _ rfl h
  · exact ccOK_next_same _ _ _ rfl h

lemma ccOK_execTRAP (m : Machine) (i : Nat) (h : ccValid m.cc) : ccOK (execTRAP m i) m := by
  unfold execTRAP
  dsimp only
  split_ifs with h1 h2 h3 h4 h5 h6 h7
  · exact ccOK_err _ _ _ rfl h
  · exact ccOK_next_same _ _ _ rfl h
  · exact ccOK_next_same _ _ _ rfl h
  · cases hs : scanPuts m.mem (m.reg 0 % 65536) 65536
    · exact ccOK_diverge m h
    · exact ccOK_next_same _ _ _ rfl h
  · exact ccOK_next_same _ _ _ rfl h
  · cases hs : scanPutsp m.mem (m.reg 0 % 65536) 65536
    · exact ccOK_diverge m h
    · exact ccOK_next_same _ _ _ rfl h
  · exact ccOK_halted _ _ _ rfl h
  · exact ccOK_err _ _ _ rfl h

lemma ccOK_execLEA (m : Machine) (i : Nat) (h : ccValid m.cc) : ccOK (execLEA m i) m := by
  simp only [execLEA]
  exact ccOK_next_same _ _ _ rfl h

lemma ccOK_step (m : Machine) (h : ccValid m.cc) : ccOK (step m) m := by
  have h1 : ccValid (incPC m).cc := h
  unfold step
  split
  · exact ccOK_execBR (incPC m) (fetched m) h1
  · exact ccOK_execADD (incPC m) (fetched m) h1
  · exact ccOK_execLD (incPC m) (fetched m) h1
  · exact ccOK_execST (incPC m) (fetched m) h1
  · exact ccOK_execJSR (incPC m) (fetched m) h1
  · exact ccOK_execAND (incPC m) (fetched m) h1
  · exact ccOK_execLDR (incPC m) (fetched m) h1
  · exact ccOK_execSTR (incPC m) (fetched m) h1
  · exact ccOK_err _ _ _ rfl h
  · exact ccOK_execNOT (incPC m) (fetched m) h1
  · exact ccOK_execLDI (incPC m) (fetched m) h1
  · exact ccOK_execSTI (incPC m) (fetched m) h1
  · exact ccOK_execJMP (incPC m) (fetched m) h1
  · exact ccOK_err _ _ _ rfl h
  · exact ccOK_execLEA (incPC m) (fetched m) h1
  · exact ccOK_execTRAP (incPC m) (fetched m) h1
  · exact ccOK_ub m h

/-! Per-instruction result lemmas: each condition-code-affecting handler
sets the condition code from its own result, the value it stores into its
destination register. -/

lemma execADD_result (m : Machine) (i : Nat) (m' : Machine) (out : List Nat)
    (h : execADD m i = StepResult.next m' out) :
    m'.cc = set_cc (wrapSigned (toSigned (m.reg (bits_reg_b i)) +
      (if bits i 5 5 = 0 then toSigned (m.reg (bits_reg_c i)) else bits_imm_5 i))) ∧
    m'.reg (bits_reg_a i) = toWord (wrapSigned (toSigned (m.reg (bits_reg_b i)) +
      (if bits i 5 5 = 0 then toSigned (m.reg (bits_reg_c i)) else bits_imm_5 i))) := by
  simp only [execADD] at h
  split_ifs at h with h1 h2 <;> cases h <;> refine ⟨?_, ?_⟩ <;> simp [setReg, h1]

lemma execAND_result (m : Machine) (i : Nat) (m' : Machine) (out : List Nat)
    (h : execAND m i = StepResult.next m' out) :
    m'.cc = set_cc (toSigned ((m.reg (bits_reg_b i) % 65536) &&&
      (if bits i 5 5 = 0 then m.reg (bits_reg_c i) % 65536
        else toWord (bits_imm_5 i)))) ∧
    m'.reg (bits_reg_a i) = (m.reg (bits_reg_b i) % 65536) &&&
      (if bits i 5 5 = 0 then m.reg (bits_reg_c i) % 65536
        else toWord (bits_imm_5 i)) := by
  simp only [execAND] at h
  split_ifs at h with h1 h2 <;> cases h <;> refine ⟨?_, ?_⟩ <;> simp [setReg, h1]

lemma execNOT_result (m : Machine) (i : Nat) (m' : Machine) (out : List Nat)
    (h : execNOT m i = StepResult.next m' out) :
    m'.cc = set_cc (toSigned (toWord
      (-1 - ((m.reg (bits_reg_b i) % 65536 : Nat) : Int)))) ∧
    m'.reg (bits_reg_a i) = toWord
      (-1 - ((m.reg (bits_reg_b i) % 65536 : Nat) : Int)) := by
  simp only [execNOT] at h
  split_ifs at h with h1 <;> cases h <;> exact ⟨rfl, by simp [setReg]⟩

lemma execLD_result (m : Machine) (i : Nat) (m' : Machine) (out : List Nat)
    (h : execLD m i = StepResult.next m' out) :
    ∃ v, memRead m ((m.pc : Int) + bits_pc_offset_9 i) = some v ∧
      m'.reg (bits_reg_a i) = v ∧ m'.cc = set_cc (toSigned v) := by
  unfold execLD at h
  dsimp only at h
  rcases hmr : memRead m ((m.pc : Int) + bits_pc_offset_9 i) with _ | v
  · rw [hmr] at h
    cases h
  · rw [hmr] at h
    injection h with e1 e2
    subst e1
    exact ⟨v, rfl, by simp [setReg], rfl⟩

lemma execLDI_result (m : Machine) (i : Nat) (m' : Machine) (out : List Nat)
    (h : execLDI m i = StepResult.next m' out) :
    ∃ address, memRead m ((m.pc : Int) + bits_pc_offset_9 i) = some address ∧
      m'.reg (bits_reg_a i) = m.mem (address % 65536) ∧
      m'.cc = set_cc (toSigned (m.mem (address % 65536))) := by
  unfold execLDI at h
  dsimp only at h
  rcases hmr : memRead m ((m.pc : Int) + bits_pc_offset_9 i) with _ | address
  · rw [hmr] at h
    cases h
  · rw [hmr] at h
    injection h with e1 e2
    subst e1
    exact ⟨address, rfl, by simp [setReg], rfl⟩

lemma execLDR_result (m : Machine) (i : Nat) (m' : Machine) (out : List Nat)
    (h : execLDR m i = StepResult.next m' out) :
    ∃ v, memRead m (((m.reg (bits_reg_b i) % 65536 : Nat) : Int) +
        bits_offset_6 i) = some v ∧
      m'.reg (bits_reg_a i) = v ∧ m'.cc = set_cc (toSigned v) := by
  unfold execLDR at h
  dsimp only at h
  rcases hmr : memRead m (((m.reg (bits_reg_b i) % 65536 : Nat) : Int) +
      bits_offset_6 i) with _ | v
  · rw [hmr] at h
    cases h
  · rw [hmr] at h
    injection h with e1 e2
    subst e1
    exact ⟨v, rfl, by simp [setReg], rfl⟩

/-- C5: at initialization the condition code is ZERO (0x2); `set_cc` always
produces exactly one of the three flags, matching the sign of its signed
argument; any step of the machine preserves the exactly-one-flag invariant;
and each of the condition-code-affecting instructions ADD, AND, NOT, LD,
LDI, LDR, when it continues the loop, sets the condition code to `set_cc`
of the signed 16-bit result it computes and stores that very result into
its destination register (bits 11-9). -/
theorem c5_condition_code_invariant (m : Machine) (h : ccValid m.cc) :
    (∀ origin words input, (initMachine origin words input).cc = 0x2) ∧
    (∀ r : Int, (r < 0 → set_cc r = 0x4) ∧ (r = 0 → set_cc r = 0x2) ∧
      (0 < r → set_cc r = 0x1) ∧ ccValid (set_cc r)) ∧
    ccValid (ccAfter (step m) m.cc) ∧
    (∀ m' out, bits (fetched m) 15 12 = 0x1 → step m = StepResult.next m' out →
      m'.cc = set_cc (wrapSigned (toSigned (m.reg (bits_reg_b (fetched m))) +
        (if bits (fetched m) 5 5 = 0 then toSigned (m.reg (bits_reg_c (fetched m)))
          else bits_imm_5 (fetched m)))) ∧
      m'.reg (bits_reg_a (fetched m)) =
        toWord (wrapSigned (toSigned (m.reg (bits_reg_b (fetched m))) +
          (if bits (fetched m) 5 5 = 0 then toSigned (m.reg (bits_reg_c (fetched m)))
            else bits_imm_5 (fetched m))))) ∧
    (∀ m' out, bits (fetched m) 15 12 = 0x5 → step m = StepResult.next m' out →
      m'.cc = set_cc (toSigned ((m.reg (bits_reg_b (fetched m)) % 65536) &&&
        (if bits (fetched m) 5 5 = 0 then m.reg (bits_reg_c (fetched m)) % 65536
          else toWord (bits_imm_5 (fetched m))))) ∧
      m'.reg (bits_reg_a (fetched m)) = (m.reg (bits_reg_b (fetched m)) % 65536) &&&
        (if bits (fetched m) 5 5 = 0 then m.reg (bits_reg_c (fetched m)) % 65536
          else toWord (bits_imm_5 (fetched m)))) ∧
    (∀ m' out, bits (fetched m) 15 12 = 0x9 → step m = StepResult.next m' out →
      m'.cc = set_cc (toSigned (toWord
        (-1 - ((m.reg (bits_reg_b (fetched m)) % 65536 : Nat) : Int)))) ∧
      m'.reg (bits_reg_a (fetched m)) = toWord
        (-1 - ((m.reg (bits_reg_b (fetched m)) % 65536 : Nat) : Int))) ∧
    (∀ m' out, bits (fetched m) 15 12 = 0x2 → step m = StepResult.next m' out →
      ∃ v, memRead m ((((m.pc + 1) % 65536 : Nat) : Int) +
          bits_pc_offset_9 (fetched m)) = some v ∧
        m'.reg (bits_reg_a (fetched m)) = v ∧ m'.cc = set_cc (toSigned v)) ∧
    (∀ m' out, bits (fetched m) 15 12 = 0xa → step m = StepResult.next m' out →
      ∃ address, memRead m ((((m.pc + 1) % 65536 : Nat) : Int) +
          bits_pc_offset_9 (fetched m)) = some address ∧
        m'.reg (bits_reg_a (fetched m)) = m.mem (address % 65536) ∧
        m'.cc = set_cc (toSigned (m.mem (address % 65536)))) ∧
    (∀ m' out, bits (fetched m) 15 12 = 0x6 → step m = StepResult.next m' out →
      ∃ v, memRead m (((m.reg (bits_reg_b (fetched m)) % 65536 : Nat) : Int) +
          bits_offset_6 (fetched m)) = some v ∧
        m'.reg (bits_reg_a (fetched m)) = v ∧ m'.cc = set_cc (toSigned v)) := by
  refine ⟨fun _ _ _ => rfl, ?_, (ccOK_step m h).1, ?_, ?_, ?_, ?_, ?_, ?_⟩
  · intro r
    refine ⟨fun hr => ?_, fun hr => ?_, fun hr => ?_, set_cc_valid r⟩ <;>
      (unfold set_cc; split_ifs <;> omega)
  · intro m' out hop hstep
    unfold step at hstep
    split at hstep <;> rename_i hsp <;> first
    | exact execADD_result (incPC m) (fetched m) m' out hstep
    | omega
    | cases hstep
  · intro m' out hop hstep
    unfold step at hstep
    split at hstep <;> rename_i hsp <;> first
    | exact execAND_result (incPC m) (fetched m) m' out hstep
    | omega
    | cases hstep
  · intro m' out hop hstep
    unfold step at hstep
    split at hstep <;> rename_i hsp <;> first
    | exact execNOT_result (incPC m) (fetched m) m' out hstep
    | omega
    | cases hstep
  · intro m' out hop hstep
    unfold step at hstep
    split at hstep <;> rename_i hsp <;> first
    | exact execLD_result (incPC m) (fetched m) m' out hstep
    | omega
    | cases hstep
  · intro m' out hop hstep
    unfold step at hstep
    split at hstep <;> rename_i hsp <;> first
    | exact execLDI_result (incPC m) (fetched m) m' out hstep
    | omega
    | cases hstep
  · intro m' out hop hstep
    unfold step at hstep
    split at hstep <;> rename_i hsp <;> first
    | exact execLDR_result (incPC m) (fetched m) m' out hstep
    | omega
    | cases hstep

/-- C5 witness: the invariant holds before and after a step of the NOP
machine, and `ADD R0, R0, #1` (word 0x1021, R0 = 0) sets the condition code
to `set_cc` of its own result 1 (POSITIVE) while storing 1 in R0. -/
theorem c5_condition_code_invariant_witness :
    ccValid nopMachine.cc ∧
    ccValid (ccAfter (step nopMachine) nopMachine.cc) ∧
    addImmResult.cc = set_cc (wrapSigned
      (toSigned (addImmMachine.reg (bits_reg_b (fetched addImmMachine))) +
        (if bits (fetched addImmMachine) 5 5 = 0 then
          toSigned (addImmMachine.reg (bits_reg_c (fetched addImmMachine)))
        else bits_imm_5 (fetched addImmMachine)))) ∧
    addImmResult.reg (bits_reg_a (fetched addImmMachine)) = toWord (wrapSigned
      (toSigned (addImmMachine.reg (bits_reg_b (fetched addImmMachine))) +
        (if bits (fetched addImmMachine) 5 5 = 0 then
          toSigned (addImmMachine.reg (bits_reg_c (fetched addImmMachine)))
        else bits_imm_5 (fetched addImmMachine)))) :=
  ⟨Or.inr (Or.inl rfl),
   (c5_condition_code_invariant nopMachine (Or.inr (Or.inl rfl))).2.2.1,
   ((c5_condition_code_invariant addImmMachine (Or.inr (Or.inl rfl))).2.2.2.1
     addImmResult [] (by decide) rfl).1,
   ((c5_condition_code_invariant addImmMachine (Or.inr (Or.inl rfl))).2.2.2.1
     addImmResult [] (by decide) rfl).2⟩

/-- C9: `bits w hi lo` with `hi ≥ lo` returns exactly bits hi..lo of the
word (`w / 2^lo % 2^(hi-lo+1)`); `sign_extend v width` for widths 1..16 and
`v < 2^width` is congruent to `v` modulo `2^width` and lies in the signed
range `[-2^(width-1), 2^(width-1))`; and re-encoding the extracted opcode
and operand fields of a 16-bit word reproduces the word. -/
theorem c9_decoder_round_trip :
    (∀ w hi lo, lo ≤ hi → bits w hi lo = w / 2 ^ lo % 2 ^ (hi - lo + 1)) ∧
    (∀ width v, 1 ≤ width → width ≤ 16 → v < 2 ^ width →
      sign_extend v width % ((2 ^ width : Nat) : Int) =
        (v : Int) % ((2 ^ width : Nat) : Int) ∧
      -((2 ^ (width - 1) : Nat) : Int) ≤ sign_extend v width ∧
      sign_extend v width < ((2 ^ (width - 1) : Nat) : Int)) ∧
    (∀ w, w < 65536 → bits w 15 12 * 4096 + bits w 11 9 * 512 + bits w 8 0 = w) := by
  refine ⟨fun w hi lo _ => bits_eq_div_mod w hi lo, ?_, ?_⟩
  · intro width v h1 h16 hv
    rw [sign_extend_eq h1 h16 hv]
    obtain ⟨w, rfl⟩ : ∃ w, width = w + 1 := ⟨width - 1, by omega⟩
    have hP : (2 : Nat) ^ (w + 1) = 2 ^ w * 2 := Nat.pow_succ 2 w
    have hnn : (0 : Int) ≤ ((2 ^ w : Nat) : Int) := Int.ofNat_nonneg _
    split_ifs with hb
    · simp only [Nat.add_sub_cancel, true_and] at hb ⊢
      omega
    · simp only [Nat.add_sub_cancel] at hb ⊢
      have hsub : ((v : Int) - ((2 ^ (w + 1) : Nat) : Int)) % ((2 ^ (w + 1) : Nat) : Int) =
          (v : Int) % ((2 ^ (w + 1) : Nat) : Int) := by
        rw [Int.sub_emod, Int.emod_self, sub_zero, Int.emod_emod_of_dvd _ dvd_rfl]
      exact ⟨hsub, by omega, by omega⟩
  · intro w hw
    have e1 := bits_eq_div_mod w 15 12
    have e2 := bits_eq_div_mod w 11 9
    have e3 := bits_eq_div_mod w 8 0
    rw [e1, e2, e3]
    norm_num
    omega

/-- C9 witness: the field extraction, sign-extension range and re-encoding
properties evaluated at concrete words. -/
theorem c9_decoder_round_trip_witness :
    bits 0x3001 15 12 = 0x3001 / 2 ^ 12 % 2 ^ (15 - 12 + 1) ∧
    (sign_extend 16 5 % ((2 ^ 5 : Nat) : Int) = (16 : Int) % ((2 ^ 5 : Nat) : Int) ∧
      -((2 ^ (5 - 1) : Nat) : Int) ≤ sign_extend 16 5 ∧
      sign_extend 16 5 < ((2 ^ (5 - 1) : Nat) : Int)) ∧
    bits 0xE002 15 12 * 4096 + bits 0xE002 11 9 * 512 + bits 0xE002 8 0 = 0xE002 :=
  ⟨c9_decoder_round_trip.1 0x3001 15 12 (by norm_num),
   c9_decoder_round_trip.2.1 5 16 (by norm_num) (by norm_num) (by norm_num),
   c9_decoder_round_trip.2.2 0xE002 (by norm_num)⟩

/-- C10: the PUTS scan index is a 16-bit word wrapping modulo 65536, so the
scan visits every memory address: the loop terminates (some finite unrolling
returns a result) exactly when some word anywhere in memory has a zero low
byte; when it does, with `k` the cyclic distance from the start address to
the first zero low byte, the output is exactly the low bytes of the `k`
words before it in cyclic order; and a TRAP PUTS step diverges exactly when
no word in memory has a zero low byte. -/
theorem c10_puts_termination (mem : Nat → Nat) (start : Nat) :
    ((∃ fuel, (scanPuts mem start fuel).isSome) ↔ ∃ a, a < 65536 ∧ mem a % 256 = 0) ∧
    ((scanPuts mem start 65536).isSome ↔ ∃ a, a < 65536 ∧ mem a % 256 = 0) ∧
    (∀ k, k < 65536 → mem ((start + k) % 65536) % 256 = 0 →
      (∀ j, j < k → mem ((start + j) % 65536) % 256 ≠ 0) →
      scanPuts mem start 65536 =
        some ((List.range k).map fun j => mem ((start + j) % 65536) % 256)) ∧
    (∀ m : Machine, fetched m = 0xF022 → m.mem = mem → m.reg 0 % 65536 = start →
      (step m = StepResult.diverge ↔ ¬∃ a, a < 65536 ∧ mem a % 256 = 0)) := by
  refine ⟨?_, ⟨scanPuts_isSome_exists mem 65536 start, exists_scanPuts_isSome mem start⟩,
    fun k hk hz hne => scanPuts_found mem k start 65536 hk hne hz, ?_⟩
  · constructor
    · rintro ⟨fuel, hf⟩
      exact scanPuts_isSome_exists mem fuel start hf
    · intro hex
      exact ⟨65536, exists_scanPuts_isSome mem start hex⟩
  · intro m hf hm hr
    unfold step
    rw [hf]
    show execTRAP (incPC m) 0xF022 = StepResult.diverge ↔
      ¬∃ a, a < 65536 ∧ mem a % 256 = 0
    rw [execTRAP_puts]
    have hmem : (incPC m).mem = mem := hm
    have hreg : (incPC m).reg 0 % 65536 = start := hr
    rw [hmem, hreg]
    cases hs : scanPuts mem start 65536
    · constructor
      · intro _
        intro hex
        have hsome := exists_scanPuts_isSome mem start hex
        rw [hs] at hsome
        exact absurd hsome (by simp)
      · intro _
        rfl
    · have hex : ∃ a, a < 65536 ∧ mem a % 256 = 0 :=
        scanPuts_isSome_exists mem 65536 start (by rw [hs]; rfl)
      constructor
      · intro hcon
        cases hcon
      · intro hno
        exact absurd hex hno

/-- C10 witness: on all-zero memory the PUTS scan terminates at once. -/
theorem c10_puts_termination_witness :
    (scanPuts (fun _ => (0 : Nat)) 0 65536).isSome :=
  ((c10_puts_termination (fun _ => 0) 0).2.1).mpr ⟨0, by norm_num, rfl⟩

end MiniLC3
